import Mathlib

/-!
Verification of the secondary oplog-application engine and the storage-engine
handle sweeper, as implemented in `sync_tail.cpp`,
`transaction_oplog_application.cpp`, `database_impl.cpp`,
`replication_coordinator_mock.cpp` and `conn_sweep.c`.

The development shallowly embeds the relevant data structures and control flow
of those files: machine integers become `Nat`/`Int`, fallible paths
(`fassert`/`invariant` failures) become `Option`/`none`, and concurrency is
modelled by making each thread-local computation an explicit function of the
state it reads.
-/

namespace Mongo

/-- `Timestamp`: seconds since epoch plus an increment, as carried in the `ts`
field of an oplog entry. -/
structure Timestamp where
  secs : Nat
  inc : Nat
deriving DecidableEq, Repr

/-- Strict lexicographic order on timestamps (seconds, then increment). -/
def Timestamp.ltb (a b : Timestamp) : Bool :=
  decide (a.secs < b.secs) || (decide (a.secs = b.secs) && decide (a.inc < b.inc))

/-- `OpTime`: (timestamp, term), totally ordered lexicographically with the
timestamp compared first, as in `repl::OpTime`. -/
structure OpTime where
  ts : Timestamp
  term : Int
deriving DecidableEq, Repr

/-- Strict order on optimes: timestamp first, then term. -/
def OpTime.ltb (a b : OpTime) : Bool :=
  Timestamp.ltb a.ts b.ts || (decide (a.ts = b.ts) && decide (a.term < b.term))

/-- Non-strict order on optimes. -/
def OpTime.leb (a b : OpTime) : Bool :=
  decide (a = b) || OpTime.ltb a b

/-- Error codes appearing in the embedded fragments of the code. -/
inductive ErrorCodes where
  | badValue
  | oplogOutOfOrder
  | cannotApplyOplogWhilePrimary
  | writeConflict
  | namespaceNotFound
  | updateOperationFailed
  | other (n : Nat)
deriving DecidableEq, Repr

/-- `Status`: OK or an error code with a reason string, as in `mongo::Status`. -/
inductive Status where
  | ok
  | error (code : ErrorCodes) (reason : String)
deriving DecidableEq, Repr

/-- `Status::isOK()`. -/
def Status.isOK : Status → Bool
  | .ok => true
  | .error _ _ => false

/-- Oplog entry operation type (the `op` field: i, u, d, n, c). -/
inductive OpType where
  | insert
  | update
  | delete
  | noop
  | command
deriving DecidableEq, Repr

/-- Command subtype of a command oplog entry (`OplogEntry::CommandType`);
`notCommand` stands for the command type of a non-command entry. -/
inductive CommandType where
  | notCommand
  | applyOps
  | commitTransaction
  | otherCommand
deriving DecidableEq, Repr

/-- The scalar fields of a parsed oplog entry (`repl::OplogEntry`) that the
embedded code reads.  `prevOpTime = none` models the null `OpTime` that
terminates a transaction's `prevOpTime` chain.  `commitPrepared` models the
optional boolean `prepared` field of a `commitTransaction` object, and
`prepareFlag` the `prepare` flag of an `applyOps` object
(`OplogEntry::shouldPrepare`). -/
structure OplogEntryData where
  opTime : OpTime
  prevOpTime : Option OpTime
  wallTime : Nat
  sessionId : Option Nat
  txnNumber : Option Nat
  inPendingTxn : Bool
  opType : OpType
  commandType : CommandType
  commitPrepared : Option Bool
  prepareFlag : Bool
  ns : String
  nsIsSystemDotViews : Bool
  nsIsServerConfig : Bool
  objsize : Nat
  version : Int
deriving DecidableEq, Repr

/-- An oplog entry together with the inner operations carried in its payload
when it is an `applyOps` entry.

Modelled from the spec: `ApplyOps::extractOperations` (in
`mongo/db/repl/apply_ops.cpp`, which is not part of this source snapshot)
expands an unprepared `applyOps` into its inner operations; the inner
operations of the payload are carried here as `innerOps`. -/
structure OplogEntry extends OplogEntryData where
  innerOps : List OplogEntryData := []
deriving DecidableEq, Repr

/-- A throwaway entry used as the default value of partial list accessors. -/
def dummyEntry : OplogEntry :=
  { opTime := ⟨⟨0, 0⟩, -1⟩
    prevOpTime := none
    wallTime := 0
    sessionId := none
    txnNumber := none
    inPendingTxn := false
    opType := OpType.noop
    commandType := CommandType.notCommand
    commitPrepared := none
    prepareFlag := false
    ns := ""
    nsIsSystemDotViews := false
    nsIsServerConfig := false
    objsize := 0
    version := 2
    innerOps := [] }

instance : Inhabited OplogEntry := ⟨dummyEntry⟩

/-! ## Database name validation (`database_impl.cpp`) -/

/-- The Windows reserved device names rejected by `validateDBNameForWindows`. -/
def windowsReservedNames : List String :=
  ["con", "prn", "aux", "nul", "com1", "com2", "com3", "com4", "com5", "com6",
   "com7", "com8", "com9", "lpt1", "lpt2", "lpt3", "lpt4", "lpt5", "lpt6",
   "lpt7", "lpt8", "lpt9"]

/-- `validateDBNameForWindows`: lowercase the name and reject it when it is a
Windows reserved device name. -/
def validateDBNameForWindows (dbname : String) : Status :=
  let lower := dbname.toLower
  if windowsReservedNames.contains lower then
    Status.error ErrorCodes.badValue "db name is a reserved name"
  else Status.ok

/-- `DatabaseImpl::validateDBName` as compiled on non-Windows builds: reject
the empty name, names of 64 or more characters, and names containing a dot or
a space. -/
def validateDBName (dbname : String) : Status :=
  if dbname.length ≤ 0 then Status.error ErrorCodes.badValue "db name is empty"
  else if 64 ≤ dbname.length then Status.error ErrorCodes.badValue "db name is too long"
  else if dbname.contains '.' then Status.error ErrorCodes.badValue "db name cannot contain a ."
  else if dbname.contains ' ' then Status.error ErrorCodes.badValue "db name cannot contain a space"
  else Status.ok

/-- `DatabaseImpl::validateDBName` as compiled on Windows builds (`_WIN32`):
the same four checks followed by `validateDBNameForWindows`. -/
def validateDBNameWin (dbname : String) : Status :=
  if dbname.length ≤ 0 then Status.error ErrorCodes.badValue "db name is empty"
  else if 64 ≤ dbname.length then Status.error ErrorCodes.badValue "db name is too long"
  else if dbname.contains '.' then Status.error ErrorCodes.badValue "db name cannot contain a ."
  else if dbname.contains ' ' then Status.error ErrorCodes.badValue "db name cannot contain a space"
  else validateDBNameForWindows dbname

/-! ## RECOVERING to SECONDARY transition (`tryToGoLiveAsASecondary`) -/

/-- The replica member states the transition code inspects. -/
inductive MemberState where
  | startup
  | primary
  | secondary
  | recovering
  | rollback
  | removed
deriving DecidableEq, Repr

/-- The values `tryToGoLiveAsASecondary` reads from the replication
coordinator.  `inPrimaryOrSecondaryUnsafe` is the lock-free pre-check
(`isInPrimaryOrSecondaryState_UNSAFE`) and `inPrimaryOrSecondary` the check
repeated under the RSTL. -/
structure ReplCoordView where
  inPrimaryOrSecondaryUnsafe : Bool
  inPrimaryOrSecondary : Bool
  maintenanceMode : Bool
  memberState : MemberState
  lastApplied : OpTime
deriving DecidableEq, Repr

/-- Outcome of one call to `tryToGoLiveAsASecondary`: returned without calling
`setFollowerMode`, transitioned, or the `setFollowerMode` call failed and a
warning was logged (the function still returns normally). -/
inductive GoLiveOutcome where
  | returnedEarly
  | transitioned
  | transitionFailedLogged
deriving DecidableEq, Repr

/-- `tryToGoLiveAsASecondary` (`sync_tail.cpp`): bail out if already
primary/secondary (twice: once lock-free, once under the RSTL), in maintenance
mode, not in RECOVERING, or `lastApplied < minValid`; otherwise call
`setFollowerMode(RS_SECONDARY)`, whose failure is only logged.
`setFollowerModeOk` models the status returned by that call. -/
def tryToGoLiveAsASecondary (r : ReplCoordView) (minValid : OpTime)
    (setFollowerModeOk : Bool) : GoLiveOutcome :=
  if r.inPrimaryOrSecondaryUnsafe then GoLiveOutcome.returnedEarly
  else if r.inPrimaryOrSecondary then GoLiveOutcome.returnedEarly
  else if r.maintenanceMode then GoLiveOutcome.returnedEarly
  else if r.memberState ≠ MemberState.recovering then GoLiveOutcome.returnedEarly
  else if OpTime.ltb r.lastApplied minValid then GoLiveOutcome.returnedEarly
  else if setFollowerModeOk then GoLiveOutcome.transitioned
  else GoLiveOutcome.transitionFailedLogged

/-- `ReplicationCoordinatorMock::setFollowerMode`: stores the new state and
always returns OK. -/
def replicationCoordinatorMockSetFollowerMode (s : MemberState) :
    MemberState × Status :=
  (s, Status.ok)

/-! ## Pipeline driver batch monotonicity (`SyncTail::_oplogApplication`) -/

/-- What one iteration of the `_oplogApplication` loop does with the batch it
pulled, after the batch-shape checks and before `multiApply`. -/
inductive DriverStep where
  | shutdownStep
  | noBatch
  | fatalOplogOutOfOrder
  | applied (lastOpTimeInBatch : OpTime)
deriving DecidableEq, Repr

/-- One iteration of `SyncTail::_oplogApplication` restricted to the batch
checks: an empty batch either shuts the loop down or loops again; a non-empty
batch whose first optime is not strictly greater than the replica's last
applied optime trips `fassert(34361, OplogOutOfOrder)`; otherwise the batch is
handed to `multiApply` and the optime of its last entry is recorded. -/
def oplogApplicationIteration (lastApplied : OpTime) (batch : List OplogEntry)
    (mustShutdown : Bool) : DriverStep :=
  match batch with
  | [] => if mustShutdown then DriverStep.shutdownStep else DriverStep.noBatch
  | first :: rest =>
    if OpTime.leb first.opTime lastApplied then DriverStep.fatalOplogOutOfOrder
    else DriverStep.applied ((first :: rest).getLastD dummyEntry).opTime

/-! ## Transaction assembler (`transaction_oplog_application.cpp`) -/

/-- `boost::optional<OpTime> < OpTime`: an absent (null) optime is less than
every optime. -/
def optLtb : Option OpTime → OpTime → Bool
  | none, _ => true
  | some a, b => OpTime.ltb a b

/-- Reconstruct an inner transaction operation as if it occurred at the commit
or prepare entry time, mirroring
`BSONObjBuilder(op.getReplOperation().toBSON()); appendElementsUnique(commitOrPrepareObj)`:
the operation keeps its own `ReplOperation` projection fields (`op`, `ns`,
`ui`, `o`, `o2`), while every envelope field absent from that projection
(`ts`, `t`, `wall`, `lsid`, `txnNumber`, `prevOpTime`, `v`) is taken from the
commit/prepare entry.  The pending-transaction marker is not part of the
projection, so the rebuilt entry is not flagged as pending. -/
def rebuildAtCommitTime (c : OplogEntry) (e : OplogEntryData) : OplogEntry :=
  { opTime := c.opTime
    prevOpTime := c.prevOpTime
    wallTime := c.wallTime
    sessionId := c.sessionId
    txnNumber := c.txnNumber
    inPendingTxn := false
    opType := e.opType
    commandType := e.commandType
    commitPrepared := e.commitPrepared
    prepareFlag := e.prepareFlag
    ns := e.ns
    nsIsSystemDotViews := e.nsIsSystemDotViews
    nsIsServerConfig := e.nsIsServerConfig
    objsize := e.objsize
    version := c.version
    innerOps := [] }

/-- The `TransactionHistoryIterator` walk of the on-disk `prevOpTime` chain:
starting from an optime, repeatedly fetch the oplog entry at that optime and
follow its `prevOpTime` link, collecting entries in walk (reverse
chronological) order, until the link is null.  Each fetched entry must be
flagged as part of a pending transaction (`invariant`, modelled as `none`).
`fuel` bounds the walk; the real iterator terminates because optimes strictly
decrease along a chain. -/
def walkChain (oplog : List OplogEntry) : Nat → Option OpTime → Option (List OplogEntry)
  | _, none => some []
  | 0, some _ => none
  | fuel + 1, some t =>
    match oplog.find? (fun e => e.opTime == t) with
    | none => none
    | some e =>
      if e.inPendingTxn then (walkChain oplog fuel e.prevOpTime).map (fun l => e :: l)
      else none

/-- `readTransactionOperationsFromOplogChain`: compute `lastEntryOpTime` as the
`prevOpTime` of the first cached in-batch op if any, else of the
commit/prepare; check `lastEntryOpTime < currentOpTime` and that a
`commitTransaction` has at least one operation (`invariant`s, modelled as
`none`); walk the on-disk chain backward collecting entries; reverse them to
chronological order; append the cached ops; rebuild every collected operation
at the commit/prepare time. -/
def readTransactionOperationsFromOplogChain (oplog : List OplogEntry)
    (commitOrPrepare : OplogEntry) (cachedOps : List OplogEntry) :
    Option (List OplogEntry) :=
  let currentOpTime := commitOrPrepare.opTime
  let lastEntryOpTime := (cachedOps.headD commitOrPrepare).prevOpTime
  if optLtb lastEntryOpTime currentOpTime = false then none
  else if commitOrPrepare.commandType = CommandType.commitTransaction ∧
          cachedOps.isEmpty ∧ lastEntryOpTime.isNone then none
  else
    match walkChain oplog oplog.length lastEntryOpTime with
    | none => none
    | some chainEntries =>
      if cachedOps.all (fun e => e.inPendingTxn) then
        some ((chainEntries.map (fun e => rebuildAtCommitTime commitOrPrepare e.toOplogEntryData)).reverse
              ++ cachedOps.map (fun e => rebuildAtCommitTime commitOrPrepare e.toOplogEntryData))
      else none

/-- A well-formed backward chain description: `chainFromB oplog t rev` says the
iterator started at `t` fetches exactly the entries of `rev` in order, each
flagged as pending, with the last link null. -/
def chainFromB (oplog : List OplogEntry) : Option OpTime → List OplogEntry → Bool
  | none, [] => true
  | none, _ :: _ => false
  | some _, [] => false
  | some t, e :: rest =>
    (oplog.find? (fun x => x.opTime == t) == some e) && e.inPendingTxn &&
      chainFromB oplog e.prevOpTime rest

/-! ## Batcher (`SyncTail::tryPopAndWaitForMore`) -/

/-- `isUnpreparedCommit`: a `commitTransaction` entry whose `prepared` field is
present as a boolean and false. -/
def isUnpreparedCommit (e : OplogEntryData) : Bool :=
  e.commandType == CommandType.commitTransaction && e.commitPrepared == some false

/-- `isUnpreparedApplyOps`: an `applyOps` entry that is not a prepare. -/
def isUnpreparedApplyOps (e : OplogEntryData) : Bool :=
  e.commandType == CommandType.applyOps && !e.prepareFlag

/-- `OplogEntry::kOplogVersion`. -/
def kOplogVersion : Int := 2

/-- Batch limits read by the batcher (`SyncTail::BatchLimits`).
`slaveDelayLatestTimestamp` is in seconds since epoch; `none` means slave
delay is disabled. -/
structure BatchLimits where
  bytes : Nat
  ops : Nat
  slaveDelayLatestTimestamp : Option Nat
deriving DecidableEq, Repr

/-- The in-progress batch (`SyncTail::OpQueue`): parsed entries, their
aggregate byte size, and the shutdown flag. -/
structure OpQueue where
  entries : List OplogEntry
  bytes : Nat
  mustShutdown : Bool
deriving DecidableEq, Repr

/-- `OpQueue::emplace_back`: parse the peeked document onto the back of the
batch, adding its size to the aggregate. -/
def OpQueue.emplaceBack (q : OpQueue) (e : OplogEntry) : OpQueue :=
  { q with entries := q.entries ++ [e], bytes := q.bytes + e.objsize }

/-- `OpQueue::pop_back`: drop the last entry and subtract its size. -/
def OpQueue.popBack (q : OpQueue) : OpQueue :=
  { q with entries := q.entries.dropLast,
           bytes := q.bytes - (q.entries.getLastD dummyEntry).objsize }

/-- `OpQueue::getCount`. -/
def OpQueue.getCount (q : OpQueue) : Nat := q.entries.length

/-- The peeked entry must be processed alone: a command other than an
unprepared `commitTransaction` or unprepared `applyOps`, or any entry on
`*.system.views` or `admin.system.version`. -/
def mustProcessIndividually (e : OplogEntry) : Bool :=
  (e.opType == OpType.command &&
     (!(isUnpreparedCommit e.toOplogEntryData) && !(isUnpreparedApplyOps e.toOplogEntryData))) ||
  e.nsIsSystemDotViews || e.nsIsServerConfig

/-- The slave-delay exclusion test: the entry's timestamp-as-date (seconds of
its `ts` field) is strictly later than `slaveDelayLatestTimestamp`. -/
def slaveDelayExcludes (limits : BatchLimits) (e : OplogEntry) : Bool :=
  match limits.slaveDelayLatestTimestamp with
  | none => false
  | some threshold => decide (threshold < e.opTime.ts.secs)

/-- Result of one `tryPopAndWaitForMore` call: either the fatal oplog-version
mismatch (`fassertFailedNoTrace(18820)`), or `next endBatch q buffer` giving
whether the batch must end, the updated batch, and the remaining buffer. -/
inductive PopResult where
  | fatalVersionMismatch
  | next (endBatch : Bool) (q : OpQueue) (buffer : List OplogEntry)
deriving DecidableEq, Repr

/-- `SyncTail::tryPopAndWaitForMore`: peek the buffer head; end the batch on an
empty buffer (setting the shutdown flag if shutting down with an empty batch);
refuse the entry when it would push a non-empty batch over the byte limit
(a single entry may exceed the limit when the batch is empty); end the batch
at the `rsSyncApplyStop` fail point; otherwise parse the entry into the batch,
fatally assert on an oplog version mismatch, pop the entry back when slave
delay excludes it, isolate must-process-individually entries (consuming the
entry only when it is alone in the batch), and otherwise consume it and end
the batch once `getCount() >= limits.ops`. -/
def tryPopAndWaitForMore (inShutdownFlag rsSyncApplyStop : Bool)
    (limits : BatchLimits) (q : OpQueue) (buffer : List OplogEntry) : PopResult :=
  match buffer with
  | [] =>
    if q.entries.isEmpty then
      if inShutdownFlag then PopResult.next true { q with mustShutdown := true } []
      else PopResult.next true q []
    else PopResult.next true q []
  | op :: rest =>
    if !q.entries.isEmpty && decide (limits.bytes < q.bytes + op.objsize) then
      PopResult.next true q (op :: rest)
    else if rsSyncApplyStop then
      PopResult.next true q (op :: rest)
    else
      let q2 := q.emplaceBack op
      if op.version ≠ kOplogVersion then PopResult.fatalVersionMismatch
      else if slaveDelayExcludes limits op then
        PopResult.next true q2.popBack (op :: rest)
      else if mustProcessIndividually op then
        if q2.getCount == 1 then PopResult.next true q2 rest
        else PopResult.next true q2.popBack (op :: rest)
      else
        PopResult.next (decide (limits.ops ≤ q2.getCount)) q2 rest

/-! ## `SyncTail::multiApply` status propagation -/

/-- The tail of `SyncTail::multiApply`, as a function of the per-writer-thread
statuses filled in by `_applyOps`: an empty batch trips `invariant(!ops.empty())`
(modelled as `none`); a stopped applier (the node became primary) fails the
batch with `CannotApplyOplogWhilePrimary`; otherwise every status is scanned
and the first non-OK one is returned, or on success the optime of the last
operation in the batch. -/
def multiApplyOutcome (applierStopped : Bool) (ops : List OplogEntry)
    (statusVector : List Status) : Option (Except Status OpTime) :=
  if ops.isEmpty then none
  else if applierStopped then
    some (Except.error (Status.error ErrorCodes.cannotApplyOplogWhilePrimary
      "attempting to replicate ops while primary"))
  else
    match statusVector.find? (fun s => !s.isOK) with
    | some s => some (Except.error s)
    | none => some (Except.ok (ops.getLastD dummyEntry).opTime)

/-! ## Writer partitioner (`SyncTail::_fillWriterVectors`) -/

/-- Modelled from the spec: `ApplyOps::extractOperations`
(`mongo/db/repl/apply_ops.cpp`, not part of this source snapshot) expands an
unprepared `applyOps` entry into its inner operations, "which are then
re-partitioned as if they had appeared in the batch individually". -/
def extractOperations (op : OplogEntry) : List OplogEntry :=
  op.innerOps.map (fun d => { toOplogEntryData := d, innerOps := [] })

/-- The per-session pending-transaction map
(`LogicalSessionIdMap<std::vector<OplogEntry*>> pendingTxnOps`), as an
association list keyed by session id. -/
abbrev PendingMap : Type := List (Nat × List OplogEntry)

/-- Read a session's pending list (`pendingTxnOps[sid]`, defaulting to empty). -/
def pendingLookup (m : PendingMap) (k : Nat) : List OplogEntry :=
  match m.find? (fun kv => kv.fst == k) with
  | some kv => kv.snd
  | none => []

/-- Write a session's pending list. -/
def pendingSet (m : PendingMap) (k : Nat) (v : List OplogEntry) : PendingMap :=
  match m with
  | [] => [(k, v)]
  | kv :: rest => if kv.fst == k then (k, v) :: rest else kv :: pendingSet rest k v

/-- The pending branch of the partitioner loop: clear the session's list when
its front has a different `txnNumber` than the incoming op, then append the
op. -/
def pendingInsert (m : PendingMap) (op : OplogEntry) : PendingMap :=
  let k := op.sessionId.getD 0
  let pl := pendingLookup m k
  let pl2 :=
    match pl with
    | [] => [op]
    | front :: _ => if front.txnNumber ≠ op.txnNumber then [op] else pl ++ [op]
  pendingSet m k pl2

/-- The partitioner state: the per-session pending map and the per-writer
vectors. -/
structure FillState where
  pending : PendingMap
  writers : List (List OplogEntry)
deriving DecidableEq

/-- Append an op to the writer vector selected by its hash modulo the number
of writers.  `hashFn` stands for the namespace hash, combined with the
document `_id` hash for CRUD ops on doc-locking engines with non-capped
collections (the hash functions themselves are external library code). -/
def pushToWriter (hashFn : OplogEntry → Nat) (numWriters : Nat)
    (st : FillState) (op : OplogEntry) : FillState :=
  let i := hashFn op % numWriters
  { st with writers := st.writers.set i (st.writers.getD i [] ++ [op]) }

/-- `SyncTail::_fillWriterVectors` with `sessionUpdateTracker == nullptr` (as
on every recursive call): skip ops at or before `beginApplyingOpTime`; hold
pending-transaction entries in the per-session pending map; expand an
unprepared `applyOps` into its inner operations and re-partition them
recursively; on an unprepared commit, read the whole transaction from the
oplog chain and the session's pending list, clear that list, and re-partition
the transaction's operations; dispatch every other op to a writer vector.
`fuel` bounds the recursion depth (the real recursion terminates because
extracted and assembled operations are plain CRUD ops); exhausted fuel and
failed assembly (`fassertFailedWithStatusNoTrace(51116)`) are modelled as
`none`. -/
def fillWriterVectors (oplog : List OplogEntry) (hashFn : OplogEntry → Nat)
    (numWriters : Nat) (beginApplyingOpTime : OpTime) :
    Nat → List OplogEntry → FillState → Option FillState
  | _, [], st => some st
  | fuel, op :: rest, st =>
    if OpTime.leb op.opTime beginApplyingOpTime then
      fillWriterVectors oplog hashFn numWriters beginApplyingOpTime fuel rest st
    else if op.inPendingTxn then
      fillWriterVectors oplog hashFn numWriters beginApplyingOpTime fuel rest
        { st with pending := pendingInsert st.pending op }
    else if isUnpreparedApplyOps op.toOplogEntryData then
      if hf : fuel = 0 then none
      else
        match fillWriterVectors oplog hashFn numWriters beginApplyingOpTime
                (fuel - 1) (extractOperations op) st with
        | none => none
        | some st2 =>
          fillWriterVectors oplog hashFn numWriters beginApplyingOpTime
            fuel rest st2
    else if isUnpreparedCommit op.toOplogEntryData then
      if hf : fuel = 0 then none
      else
        let sid := op.sessionId.getD 0
        match readTransactionOperationsFromOplogChain oplog op
                (pendingLookup st.pending sid) with
        | none => none
        | some txnOps =>
          match fillWriterVectors oplog hashFn numWriters beginApplyingOpTime
                  (fuel - 1) txnOps
                  { st with pending := pendingSet st.pending sid [] } with
          | none => none
          | some st2 =>
            fillWriterVectors oplog hashFn numWriters beginApplyingOpTime
              fuel rest st2
    else
      fillWriterVectors oplog hashFn numWriters beginApplyingOpTime fuel rest
        (pushToWriter hashFn numWriters st op)
termination_by fuel ops _ => (fuel, ops.length)
decreasing_by
  all_goals simp_wf
  all_goals first
    | exact Prod.Lex.right _ (by simp [Nat.lt_succ_iff])
    | exact Prod.Lex.left _ _ (by omega)

/-- No entry sitting in a writer vector is flagged as part of a pending
transaction. -/
def writersHaveNoPendingOps (st : FillState) : Prop :=
  ∀ w ∈ st.writers, ∀ e ∈ w, e.inPendingTxn = false

/-! ## Handle sweeper (`conn_sweep.c`) -/

/-- Data-handle type (`WT_DHANDLE_TYPE_BTREE` / `WT_DHANDLE_TYPE_TABLE`). -/
inductive HandleType where
  | btree
  | table
deriving DecidableEq, Repr

/-- The state of a `WT_DATA_HANDLE` that the sweeper reads or writes.
`modified` and `visibleAll` model `btree->modified` and
`__wt_txn_visible_all(session, btree->rec_max_txn, btree->rec_max_timestamp)`
for btree-type handles; `lockAvail` models whether `__wt_try_writelock` on the
handle's rwlock succeeds for the sweep server. -/
structure DHandle where
  isMetadata : Bool
  typ : HandleType
  isOpen : Bool
  dead : Bool
  exclusive : Bool
  sessionInUse : Nat
  sessionRef : Nat
  timeOfDeath : Nat
  modified : Bool
  visibleAll : Bool
  lockAvail : Bool
deriving DecidableEq, Repr

/-- `WT_DHANDLE_CAN_DISCARD`: neither EXCLUSIVE nor OPEN, and no session uses
or references the handle. -/
def canDiscard (d : DHandle) : Bool :=
  !d.exclusive && !d.isOpen && d.sessionInUse == 0 && d.sessionRef == 0

/-- `__sweep_mark` on one handle: skip metadata; clear the time of death when
multiple cursors are open on it; set the time of death to `now` when the
handle is not exclusive, not in use, and not yet marked. -/
def sweepMarkOne (now : Nat) (d : DHandle) : DHandle :=
  if d.isMetadata then d
  else
    let d1 := if 1 < d.sessionInUse then { d with timeOfDeath := 0 } else d
    if d1.exclusive = true ∨ 0 < d1.sessionInUse ∨ d1.timeOfDeath ≠ 0 then d1
    else { d1 with timeOfDeath := now }

/-- `__sweep_mark` over the handle list. -/
def sweepMark (now : Nat) (hs : List DHandle) : List DHandle :=
  hs.map (sweepMarkOne now)

/-- `__sweep_expire_one`: try the handle's write lock (an EBUSY failure skips
the handle); skip btrees that are modified or have updates not visible to all
transactions; otherwise mark the handle dead and close it
(`__wt_conn_dhandle_close(session, false, true)`). -/
def sweepExpireOne (d : DHandle) : DHandle :=
  if d.lockAvail = false then d
  else if d.typ = HandleType.btree ∧ (d.modified = true ∨ d.visibleAll = false) then d
  else { d with dead := true, isOpen := false }

/-- `__sweep_expire`: walk the handle list while the open btree count stays at
or above the configured minimum, skipping metadata handles, closed handles,
handles in use, and handles not yet idle for longer than the idle time; expire
each remaining handle, decrementing the open btree count when a btree handle
was closed. -/
def sweepExpire (handlesMin idleTime now : Nat) :
    List DHandle → Nat → List DHandle
  | [], _ => []
  | d :: rest, count =>
    if count < handlesMin then d :: rest
    else if d.isMetadata = true ∨ d.isOpen = false ∨ d.sessionInUse ≠ 0 ∨
            d.timeOfDeath = 0 ∨ now - d.timeOfDeath ≤ idleTime then
      d :: sweepExpire handlesMin idleTime now rest count
    else
      let d2 := sweepExpireOne d
      let count2 :=
        if d2.isOpen = false ∧ d.typ = HandleType.btree then count - 1 else count
      d2 :: sweepExpire handlesMin idleTime now rest count2

/-- `__sweep_discard_trees` on one handle: a handle that is OPEN and marked
DEAD is flushed from cache (`__wt_conn_dhandle_close(session, false, false)`),
which clears its OPEN flag. -/
def sweepDiscardOne (d : DHandle) : DHandle :=
  if d.isOpen = true ∧ d.dead = true then { d with isOpen := false } else d

/-- `__sweep_discard_trees` over the handle list. -/
def sweepDiscardTrees (hs : List DHandle) : List DHandle :=
  hs.map sweepDiscardOne

/-- The `dead_handles` count produced by `__sweep_discard_trees`: discardable
handles plus handles it closed. -/
def deadHandlesCount (hs : List DHandle) : Nat :=
  (hs.filter (fun d => canDiscard d)).length +
    (hs.filter (fun d => d.isOpen && d.dead)).length

/-- `__sweep_remove_one` succeeds (the handle is unlinked) exactly when the
handle is not metadata, passes the `WT_DHANDLE_CAN_DISCARD` check in
`__sweep_remove_handles`, its write lock is acquired, and the discardable
predicate holds again on the re-check under that lock. -/
def sweepRemoveOneSucceeds (d : DHandle) : Bool :=
  !d.isMetadata && canDiscard d && d.lockAvail && canDiscard d

/-- `__sweep_remove_handles`: unlink every handle whose removal succeeds. -/
def sweepRemoveHandles (hs : List DHandle) : List DHandle :=
  hs.filter (fun d => !(sweepRemoveOneSucceeds d))

/-- Sweep-server configuration (`file_manager.close_idle_time`,
`file_manager.close_handle_minimum`). -/
structure SweepConfig where
  idleTime : Nat
  handlesMin : Nat
deriving DecidableEq, Repr

/-- `conn->open_btree_count`: the number of open btree-type handles. -/
def openBtreeCount (hs : List DHandle) : Nat :=
  (hs.filter (fun d => d.typ == HandleType.btree && d.isOpen)).length

/-- One data-handle sweep tick of `__sweep_server`: mark (when idle time is
enabled), expire (when additionally the open btree count has reached the
configured minimum), discard dead trees, and remove discardable handles when
any dead handles were reported. -/
def sweepTick (cfg : SweepConfig) (now : Nat) (hs : List DHandle) : List DHandle :=
  let hs1 := if cfg.idleTime ≠ 0 then sweepMark now hs else hs
  let hs2 :=
    if cfg.idleTime ≠ 0 ∧ cfg.handlesMin ≤ openBtreeCount hs1 then
      sweepExpire cfg.handlesMin cfg.idleTime now hs1 (openBtreeCount hs1)
    else hs1
  let hs3 := sweepDiscardTrees hs2
  if 0 < deadHandlesCount hs2 then sweepRemoveHandles hs3 else hs3

/-- The fields of a handle other than its time of death. -/
def DHandle.core (d : DHandle) :
    Bool × HandleType × Bool × Bool × Bool × Nat × Nat × Bool × Bool × Bool :=
  (d.isMetadata, d.typ, d.isOpen, d.dead, d.exclusive, d.sessionInUse,
   d.sessionRef, d.modified, d.visibleAll, d.lockAvail)

/-- A handle the expire phase is guaranteed to leave untouched: it is
metadata, closed, in use, its lock cannot be taken, or it is a dirty or
not-globally-visible btree. -/
def expireBlocked (d : DHandle) : Prop :=
  d.isMetadata = true ∨ d.isOpen = false ∨ d.sessionInUse ≠ 0 ∨
    d.lockAvail = false ∨
    (d.typ = HandleType.btree ∧ (d.modified = true ∨ d.visibleAll = false))

/-! ## Concrete sample data used by the witness theorems -/

/-- Sample transaction op written to the oplog (start of the chain). -/
def txnOpA : OplogEntry :=
  { dummyEntry with
    opTime := ⟨⟨1, 0⟩, 1⟩
    prevOpTime := none
    opType := OpType.insert
    ns := "test.a"
    inPendingTxn := true
    sessionId := some 4
    txnNumber := some 7 }

/-- Sample transaction op written to the oplog (second in the chain). -/
def txnOpB : OplogEntry :=
  { dummyEntry with
    opTime := ⟨⟨2, 0⟩, 1⟩
    prevOpTime := some ⟨⟨1, 0⟩, 1⟩
    opType := OpType.insert
    ns := "test.b"
    inPendingTxn := true
    sessionId := some 4
    txnNumber := some 7 }

/-- Sample transaction op cached in the current batch. -/
def txnOpC : OplogEntry :=
  { dummyEntry with
    opTime := ⟨⟨3, 0⟩, 1⟩
    prevOpTime := some ⟨⟨2, 0⟩, 1⟩
    opType := OpType.insert
    ns := "test.c"
    inPendingTxn := true
    sessionId := some 4
    txnNumber := some 7 }

/-- Sample unprepared commit entry for the transaction above. -/
def txnCommit : OplogEntry :=
  { dummyEntry with
    opTime := ⟨⟨4, 0⟩, 1⟩
    prevOpTime := some ⟨⟨3, 0⟩, 1⟩
    opType := OpType.command
    commandType := CommandType.commitTransaction
    commitPrepared := some false
    sessionId := some 4
    txnNumber := some 7
    wallTime := 40 }

/-- Sample commit entry with no operations at all. -/
def emptyCommit : OplogEntry :=
  { dummyEntry with
    opTime := ⟨⟨4, 0⟩, 1⟩
    prevOpTime := none
    opType := OpType.command
    commandType := CommandType.commitTransaction
    commitPrepared := some false }

/-- Sample prepare entry (a prepared `applyOps`) with no operations. -/
def emptyPrepare : OplogEntry :=
  { dummyEntry with
    opTime := ⟨⟨4, 0⟩, 1⟩
    prevOpTime := none
    opType := OpType.command
    commandType := CommandType.applyOps
    prepareFlag := true }

/-- Sample oversized entry (100 bytes) for the batcher witnesses. -/
def bigOp : OplogEntry :=
  { dummyEntry with
    opTime := ⟨⟨9, 0⟩, 1⟩
    opType := OpType.insert
    objsize := 100 }

/-- Sample small follow-up entry for the batcher witnesses. -/
def smallOp : OplogEntry :=
  { dummyEntry with
    opTime := ⟨⟨10, 0⟩, 1⟩
    opType := OpType.insert
    objsize := 1 }

/-- Batch limits with a 5-byte cap and slave delay disabled. -/
def tinyByteLimits : BatchLimits :=
  { bytes := 5, ops := 50, slaveDelayLatestTimestamp := none }

/-- Batch limits with the slave-delay threshold at 100 seconds. -/
def slaveDelayLimits : BatchLimits :=
  { bytes := 1000, ops := 5, slaveDelayLatestTimestamp := some 100 }

/-- The empty batch. -/
def emptyQueue : OpQueue := { entries := [], bytes := 0, mustShutdown := false }

/-- Entry whose timestamp-as-date is exactly at the slave-delay threshold. -/
def opAtThreshold : OplogEntry :=
  { dummyEntry with
    opTime := ⟨⟨100, 0⟩, 1⟩
    opType := OpType.insert
    objsize := 10 }

/-- Entry whose timestamp-as-date is strictly past the slave-delay threshold. -/
def opPastThreshold : OplogEntry :=
  { dummyEntry with
    opTime := ⟨⟨101, 0⟩, 1⟩
    opType := OpType.insert
    objsize := 10 }

/-- Sample in-use handle for the sweeper witness. -/
def busyHandle : DHandle :=
  { isMetadata := false
    typ := HandleType.btree
    isOpen := true
    dead := false
    exclusive := false
    sessionInUse := 2
    sessionRef := 1
    timeOfDeath := 3
    modified := false
    visibleAll := true
    lockAvail := true }

/-- Sample idle discardable handle for the sweeper witness. -/
def idleHandle : DHandle :=
  { isMetadata := false
    typ := HandleType.btree
    isOpen := false
    dead := true
    exclusive := false
    sessionInUse := 0
    sessionRef := 0
    timeOfDeath := 3
    modified := false
    visibleAll := true
    lockAvail := true }

/-- Sweep configuration for the witness. -/
def sampleSweepConfig : SweepConfig := { idleTime := 5, handlesMin := 0 }

/-! ## Order lemmas -/

theorem OpTime.ltb_of_leb_eq_false {a b : OpTime} (h : OpTime.leb a b = false) :
    OpTime.ltb b a = true := by
  rcases a with ⟨⟨sa, ia⟩, ta⟩
  rcases b with ⟨⟨sb, ib⟩, tb⟩
  simp [OpTime.leb, OpTime.ltb, Timestamp.ltb, OpTime.mk.injEq,
    Timestamp.mk.injEq] at h ⊢
  omega

/-! ## C10: database name validation -/

/-- C10: database name validation rejects exactly the empty string, names of
64 or more characters, names containing a dot, and names containing a space —
plus, on Windows builds only, the Windows reserved device names — and accepts
every other name with an OK status. -/
theorem validateDBName_rejects_exactly (dbname : String) :
    (validateDBName dbname = Status.ok ↔
      (0 < dbname.length ∧ dbname.length < 64 ∧
        dbname.contains '.' = false ∧ dbname.contains ' ' = false)) ∧
    (validateDBNameWin dbname = Status.ok ↔
      (0 < dbname.length ∧ dbname.length < 64 ∧
        dbname.contains '.' = false ∧ dbname.contains ' ' = false ∧
        windowsReservedNames.contains dbname.toLower = false)) := by
  constructor
  · unfold validateDBName
    split_ifs with h1 h2 h3 h4 <;> simp_all <;> omega
  · unfold validateDBNameWin validateDBNameForWindows
    split_ifs with h1 h2 h3 h4 h5
    all_goals simp_all
    all_goals omega

/-! ## C2: RECOVERING to SECONDARY transition guard -/

/-- C2: `setFollowerMode(SECONDARY)` is reached only when the node is not
already primary or secondary, not in maintenance mode, currently in
RECOVERING, and `lastApplied ≥ minValid`; whenever `lastApplied < minValid`
the call returns early without transitioning; and a failing `setFollowerMode`
only results in a logged warning, never a fatal outcome. -/
theorem tryToGoLive_secondary_transition_guarded (r : ReplCoordView)
    (minValid : OpTime) (sfmOk : Bool) :
    (tryToGoLiveAsASecondary r minValid sfmOk ≠ GoLiveOutcome.returnedEarly →
      r.inPrimaryOrSecondaryUnsafe = false ∧ r.inPrimaryOrSecondary = false ∧
      r.maintenanceMode = false ∧ r.memberState = MemberState.recovering ∧
      OpTime.ltb r.lastApplied minValid = false) ∧
    (OpTime.ltb r.lastApplied minValid = true →
      tryToGoLiveAsASecondary r minValid sfmOk = GoLiveOutcome.returnedEarly) ∧
    (r.inPrimaryOrSecondaryUnsafe = false → r.inPrimaryOrSecondary = false →
      r.maintenanceMode = false → r.memberState = MemberState.recovering →
      OpTime.ltb r.lastApplied minValid = false → sfmOk = false →
      tryToGoLiveAsASecondary r minValid sfmOk =
        GoLiveOutcome.transitionFailedLogged) := by
  unfold tryToGoLiveAsASecondary
  refine ⟨?_, ?_, ?_⟩ <;> split_ifs <;> simp_all

/-- Witness for C2 at a concrete coordinator view with
`lastApplied < minValid`. -/
theorem tryToGoLive_secondary_transition_guarded_witness :
    OpTime.ltb ⟨⟨5, 0⟩, 1⟩ ⟨⟨9, 0⟩, 1⟩ = true ∧
    tryToGoLiveAsASecondary
      ⟨false, false, false, MemberState.recovering, ⟨⟨5, 0⟩, 1⟩⟩
      ⟨⟨9, 0⟩, 1⟩ true = GoLiveOutcome.returnedEarly :=
  ⟨by decide,
    (tryToGoLive_secondary_transition_guarded
      ⟨false, false, false, MemberState.recovering, ⟨⟨5, 0⟩, 1⟩⟩
      ⟨⟨9, 0⟩, 1⟩ true).2.1 (by decide)⟩

/-! ## C3: batch monotonicity in the pipeline driver -/

/-- C3: for every non-empty batch pulled by `_oplogApplication`, a first
optime not strictly greater than the replica's last applied optime at entry is
fatal (`OplogOutOfOrder`), and consequently every batch that reaches
`multiApply` has its first optime strictly greater than the last applied
optime at entry. -/
theorem oplogApplication_batch_monotonicity (lastApplied : OpTime)
    (batch : List OplogEntry) (mustShutdown : Bool) :
    (∀ first rest, batch = first :: rest →
      OpTime.leb first.opTime lastApplied = true →
      oplogApplicationIteration lastApplied batch mustShutdown =
        DriverStep.fatalOplogOutOfOrder) ∧
    (∀ t, oplogApplicationIteration lastApplied batch mustShutdown =
        DriverStep.applied t →
      ∃ first rest, batch = first :: rest ∧
        OpTime.ltb lastApplied first.opTime = true ∧
        t = (batch.getLastD dummyEntry).opTime) := by
  constructor
  · rintro first rest rfl h
    simp [oplogApplicationIteration, h]
  · intro t h
    cases batch with
    | nil =>
      unfold oplogApplicationIteration at h
      split_ifs at h
    | cons first rest =>
      refine ⟨first, rest, rfl, ?_⟩
      simp only [oplogApplicationIteration] at h
      split_ifs at h with hle
      simp only [DriverStep.applied.injEq] at h
      refine ⟨OpTime.ltb_of_leb_eq_false (Bool.eq_false_iff.mpr hle), ?_⟩
      rw [List.getLastD_eq_getLast?]
      exact h.symm

/-- Witness for C3 at a concrete one-entry batch whose optime equals the last
applied optime. -/
theorem oplogApplication_batch_monotonicity_witness :
    OpTime.leb (⟨⟨7, 0⟩, 1⟩ : OpTime) ⟨⟨7, 0⟩, 1⟩ = true ∧
    oplogApplicationIteration ⟨⟨7, 0⟩, 1⟩
      [{ dummyEntry with opTime := ⟨⟨7, 0⟩, 1⟩ }] false =
      DriverStep.fatalOplogOutOfOrder :=
  ⟨by decide,
    (oplogApplication_batch_monotonicity ⟨⟨7, 0⟩, 1⟩
      [{ dummyEntry with opTime := ⟨⟨7, 0⟩, 1⟩ }] false).1
      { dummyEntry with opTime := ⟨⟨7, 0⟩, 1⟩ } [] rfl (by decide)⟩

/-! ## C1: transaction assembly -/

theorem walkChain_of_chainFromB (oplog : List OplogEntry) :
    ∀ (rev : List OplogEntry) (t : Option OpTime) (fuel : Nat),
      chainFromB oplog t rev = true → rev.length ≤ fuel →
      walkChain oplog fuel t = some rev := by
  intro rev
  induction rev with
  | nil =>
    intro t fuel h _
    cases t with
    | none => cases fuel <;> simp [walkChain]
    | some t0 => simp [chainFromB] at h
  | cons e rest ih =>
    intro t fuel h hf
    cases t with
    | none => simp [chainFromB] at h
    | some t0 =>
      cases fuel with
      | zero => simp at hf
      | succ fuel2 =>
        simp only [chainFromB, Bool.and_eq_true, beq_iff_eq] at h
        obtain ⟨⟨hfind, hpend⟩, hchain⟩ := h
        have hrest : rest.length ≤ fuel2 := by
          simp only [List.length_cons] at hf
          omega
        simp only [walkChain, hfind, hpend, if_true]
        rw [ih e.prevOpTime fuel2 hchain hrest]
        rfl

/-- C1: for a transaction whose operations are `diskOps` (already written to
the oplog, linked backward through `prevOpTime` from the first cached op if
any, else from the commit/prepare entry) followed by `cachedOps` (the in-batch
ops, in chronological order, all flagged pending), the assembler returns
exactly `diskOps ++ cachedOps` in chronological order, each rebuilt as if it
occurred at the commit/prepare optime by overlaying the commit/prepare
envelope fields. -/
theorem readTransactionOperations_assembles_chronologically
    (oplog : List OplogEntry) (c : OplogEntry) (diskOps cachedOps : List OplogEntry)
    (hchain : chainFromB oplog ((cachedOps.headD c).prevOpTime) diskOps.reverse = true)
    (hfuel : diskOps.length ≤ oplog.length)
    (hlt : optLtb ((cachedOps.headD c).prevOpTime) c.opTime = true)
    (hcached : cachedOps.all (fun e => e.inPendingTxn) = true)
    (hne : c.commandType = CommandType.commitTransaction →
      diskOps ≠ [] ∨ cachedOps ≠ []) :
    readTransactionOperationsFromOplogChain oplog c cachedOps =
      some ((diskOps ++ cachedOps).map
        (fun e => rebuildAtCommitTime c e.toOplogEntryData)) := by
  have hwalk : walkChain oplog oplog.length ((cachedOps.headD c).prevOpTime) =
      some diskOps.reverse :=
    walkChain_of_chainFromB oplog diskOps.reverse _ oplog.length hchain
      (by simpa using hfuel)
  have hguard : ¬(c.commandType = CommandType.commitTransaction ∧
      cachedOps.isEmpty ∧ ((cachedOps.headD c).prevOpTime).isNone) := by
    rintro ⟨h1, h2, h3⟩
    have hce : cachedOps = [] := by simpa using h2
    subst hce
    rcases hne h1 with hd | hc
    · have hprev : c.prevOpTime = none := by simpa using h3
      rw [List.headD_nil, hprev] at hchain
      cases hrev : diskOps.reverse with
      | nil => exact hd (by simpa using congrArg List.reverse hrev)
      | cons x xs => rw [hrev] at hchain; simp [chainFromB] at hchain
    · exact hc rfl
  unfold readTransactionOperationsFromOplogChain
  simp only [List.headD_eq_head?] at hlt hguard hwalk ⊢
  rw [if_neg (by simp [hlt]), if_neg (by simpa using hguard), hwalk]
  simp [hcached, List.map_reverse]

/-- Witness for C1: a transaction with two on-disk operations and one cached
in-batch operation, assembled at a commit entry. -/
theorem readTransactionOperations_assembles_chronologically_witness :
    readTransactionOperationsFromOplogChain [txnOpA, txnOpB] txnCommit [txnOpC] =
      some (([txnOpA, txnOpB, txnOpC] : List OplogEntry).map
        (fun e => rebuildAtCommitTime txnCommit e.toOplogEntryData)) :=
  readTransactionOperations_assembles_chronologically [txnOpA, txnOpB] txnCommit
    [txnOpA, txnOpB] [txnOpC]
    (by decide) (by decide) (by decide) (by decide) (by decide)

/-! ## C9: empty commits disallowed, empty prepares allowed -/

/-- C9: the assembler's precondition: a `commitTransaction` with no cached op
and an empty on-disk chain trips the invariant (modelled as `none`); a
prepare (`applyOps`) entry with no operations is allowed and yields the empty
operation list; and a commit with a cached pending op passes the check. -/
theorem transaction_assembler_empty_commit_disallowed (oplog : List OplogEntry)
    (c e : OplogEntry) :
    (c.commandType = CommandType.commitTransaction → c.prevOpTime = none →
      readTransactionOperationsFromOplogChain oplog c [] = none) ∧
    (c.commandType = CommandType.applyOps → c.prevOpTime = none →
      readTransactionOperationsFromOplogChain oplog c [] = some []) ∧
    (c.commandType = CommandType.commitTransaction → e.prevOpTime = none →
      e.inPendingTxn = true →
      readTransactionOperationsFromOplogChain oplog c [e] =
        some [rebuildAtCommitTime c e.toOplogEntryData]) := by
  refine ⟨?_, ?_, ?_⟩
  · intro h1 h2
    unfold readTransactionOperationsFromOplogChain
    simp [h1, h2, optLtb]
  · intro h1 h2
    unfold readTransactionOperationsFromOplogChain
    simp [h1, h2, optLtb]
    cases oplog.length <;> simp [walkChain]
  · intro h1 h2 h3
    unfold readTransactionOperationsFromOplogChain
    simp [h2, h3, optLtb]
    cases oplog.length <;> simp [walkChain]

/-- Witness for C9 at concrete commit and prepare entries with a null
`prevOpTime`. -/
theorem transaction_assembler_empty_commit_disallowed_witness :
    readTransactionOperationsFromOplogChain [] emptyCommit [] = none ∧
    readTransactionOperationsFromOplogChain [] emptyPrepare [] = some [] :=
  ⟨(transaction_assembler_empty_commit_disallowed [] emptyCommit dummyEntry).1
      rfl rfl,
   (transaction_assembler_empty_commit_disallowed [] emptyPrepare dummyEntry).2.1
      rfl rfl⟩

/-! ## C6, C7: batcher boundary behaviors -/

theorem OpTime.leb_eq_false_of_ltb {a b : OpTime} (h : OpTime.ltb a b = true) :
    OpTime.leb b a = false := by
  rcases a with ⟨⟨sa, ia⟩, ta⟩
  rcases b with ⟨⟨sb, ib⟩, tb⟩
  simp [OpTime.leb, OpTime.ltb, Timestamp.ltb, OpTime.mk.injEq,
    Timestamp.mk.injEq] at h ⊢
  omega

theorem OpQueue.popBack_emplaceBack (q : OpQueue) (e : OplogEntry) :
    (q.emplaceBack e).popBack = q := by
  rcases q with ⟨entries, bytes, ms⟩
  simp [OpQueue.emplaceBack, OpQueue.popBack, List.dropLast_concat,
    List.getLastD_eq_getLast?, List.getLast?_concat]

/-- C6: when the peeked entry's size added to the batch's bytes would exceed
`maxBytes` and the batch is non-empty, the batch ends without the entry and
without consuming it; when the batch is empty the entry is admitted no matter
its size, forming a batch whose bytes may exceed the limit, after which any
further peeked entry ends the batch (so the oversized entry forms a batch of
one); and a non-empty batch is applied by the driver whenever its first optime
exceeds the last applied optime. -/
theorem batcher_single_oversized_entry (sh fp : Bool) (limits : BatchLimits)
    (q : OpQueue) (op : OplogEntry) (rest : List OplogEntry)
    (lastApplied : OpTime) :
    (q.entries ≠ [] → limits.bytes < q.bytes + op.objsize →
      tryPopAndWaitForMore sh fp limits q (op :: rest) =
        PopResult.next true q (op :: rest)) ∧
    (q.entries = [] → op.version = kOplogVersion →
      slaveDelayExcludes limits op = false → mustProcessIndividually op = false →
      tryPopAndWaitForMore sh false limits q (op :: rest) =
        PopResult.next (decide (limits.ops ≤ 1)) (q.emplaceBack op) rest) ∧
    (q.entries ≠ [] → limits.bytes < q.bytes →
      tryPopAndWaitForMore sh fp limits q (op :: rest) =
        PopResult.next true q (op :: rest)) ∧
    (OpTime.ltb lastApplied op.opTime = true →
      oplogApplicationIteration lastApplied [op] false =
        DriverStep.applied op.opTime) := by
  refine ⟨?_, ?_, ?_, ?_⟩
  · intro hne hover
    simp only [tryPopAndWaitForMore]
    rw [if_pos (by simp [List.isEmpty_iff, hne, hover])]
  · intro hemp hv hsd hiso
    simp [tryPopAndWaitForMore, hemp, hv, hsd, hiso, OpQueue.getCount,
      OpQueue.emplaceBack]
  · intro hne hover
    have hover2 : limits.bytes < q.bytes + op.objsize :=
      Nat.lt_of_lt_of_le hover (Nat.le_add_right _ _)
    simp only [tryPopAndWaitForMore]
    rw [if_pos (by simp [List.isEmpty_iff, hne, hover2])]
  · intro hlt
    simp [oplogApplicationIteration, OpTime.leb_eq_false_of_ltb hlt]

/-- Witness for C6: an entry of 100 bytes admitted into an empty batch under a
5-byte limit, and the same batch then refusing the next entry. -/
theorem batcher_single_oversized_entry_witness :
    tryPopAndWaitForMore false false tinyByteLimits emptyQueue [bigOp] =
      PopResult.next false (OpQueue.emplaceBack emptyQueue bigOp) [] ∧
    tryPopAndWaitForMore false false tinyByteLimits
      { entries := [bigOp], bytes := 100, mustShutdown := false } [smallOp] =
      PopResult.next true
        { entries := [bigOp], bytes := 100, mustShutdown := false } [smallOp] := by
  constructor
  · have h := (batcher_single_oversized_entry false false tinyByteLimits
      emptyQueue bigOp [] ⟨⟨0, 0⟩, 0⟩).2.1 rfl rfl (by decide) (by decide)
    simpa using h
  · exact (batcher_single_oversized_entry false false tinyByteLimits
      { entries := [bigOp], bytes := 100, mustShutdown := false } smallOp
      [] ⟨⟨0, 0⟩, 0⟩).1 (by decide) (by decide)

/-- C7 counterexample: with slave delay enabled and
`slaveDelayLatestTimestamp = 100` seconds, an entry whose timestamp-as-date is
exactly 100 — exactly at the threshold — is included in the current batch and
consumed from the buffer, because the code excludes only entries strictly
later than the threshold.  This refutes the claim that an entry exactly at the
threshold is not included until the clock advances. -/
theorem slaveDelay_at_threshold_included_counterexample :
    tryPopAndWaitForMore false false slaveDelayLimits emptyQueue [opAtThreshold] =
      PopResult.next false
        { entries := [opAtThreshold], bytes := 10, mustShutdown := false } [] ∧
    opAtThreshold ∈
      ({ entries := [opAtThreshold], bytes := 10, mustShutdown := false } : OpQueue).entries := by
  constructor
  · decide
  · decide

/-- C7 (amended): when slave delay is enabled with threshold
`slaveDelayLatestTimestamp`, an entry whose timestamp-as-date is strictly
greater than the threshold is not included in the current batch (it is popped
back off the queue, left in the buffer, and the batcher sleeps if the batch is
empty), while an entry whose timestamp-as-date is less than or equal to the
threshold — including exactly at it — is included. -/
theorem slaveDelay_excludes_only_strictly_newer (sh : Bool)
    (limits : BatchLimits) (q : OpQueue) (op : OplogEntry)
    (rest : List OplogEntry) (thr : Nat)
    (hthr : limits.slaveDelayLatestTimestamp = some thr)
    (hB : (!q.entries.isEmpty && decide (limits.bytes < q.bytes + op.objsize)) = false)
    (hv : op.version = kOplogVersion) :
    (thr < op.opTime.ts.secs →
      tryPopAndWaitForMore sh false limits q (op :: rest) =
        PopResult.next true q (op :: rest)) ∧
    (op.opTime.ts.secs ≤ thr → mustProcessIndividually op = false →
      tryPopAndWaitForMore sh false limits q (op :: rest) =
        PopResult.next (decide (limits.ops ≤ (q.emplaceBack op).getCount))
          (q.emplaceBack op) rest) := by
  constructor
  · intro hgt
    simp only [tryPopAndWaitForMore]
    rw [if_neg (by rw [hB]; simp), if_neg (by simp)]
    simp [hv, slaveDelayExcludes, hthr, hgt, OpQueue.popBack_emplaceBack]
  · intro hle hiso
    simp only [tryPopAndWaitForMore]
    rw [if_neg (by rw [hB]; simp), if_neg (by simp)]
    simp [hv, slaveDelayExcludes, hthr, Nat.not_lt.mpr hle, hiso]

/-- Witness for the amended C7: threshold 100, one entry at 101 seconds held
back, one entry at 100 seconds admitted. -/
theorem slaveDelay_excludes_only_strictly_newer_witness :
    tryPopAndWaitForMore false false slaveDelayLimits emptyQueue [opPastThreshold] =
      PopResult.next true emptyQueue [opPastThreshold] ∧
    tryPopAndWaitForMore false false slaveDelayLimits emptyQueue [opAtThreshold] =
      PopResult.next
        (decide (slaveDelayLimits.ops ≤ (OpQueue.emplaceBack emptyQueue opAtThreshold).getCount))
        (OpQueue.emplaceBack emptyQueue opAtThreshold) [] :=
  ⟨(slaveDelay_excludes_only_strictly_newer false slaveDelayLimits emptyQueue
      opPastThreshold [] 100 rfl (by decide) rfl).1 (by decide),
   (slaveDelay_excludes_only_strictly_newer false slaveDelayLimits emptyQueue
      opAtThreshold [] 100 rfl (by decide) rfl).2 (by decide) (by decide)⟩

/-! ## C8: multiApply status propagation -/

theorem find?_nonOK_append (post : List Status) (s : Status)
    (hs : s.isOK = false) :
    ∀ pre : List Status, (∀ x ∈ pre, x.isOK = true) →
      (pre ++ s :: post).find? (fun x => !x.isOK) = some s := by
  intro pre
  induction pre with
  | nil => intro _; simp [List.find?, hs]
  | cons a t ih =>
    intro h
    have ha : a.isOK = true := h a (List.mem_cons_self a t)
    simp only [List.cons_append, List.find?, ha, Bool.not_true]
    exact ih (fun x hx => h x (List.mem_cons_of_mem a hx))

theorem find?_nonOK_none :
    ∀ pre : List Status, (∀ x ∈ pre, x.isOK = true) →
      pre.find? (fun x => !x.isOK) = none := by
  intro pre
  induction pre with
  | nil => intro _; rfl
  | cons a t ih =>
    intro h
    have ha : a.isOK = true := h a (List.mem_cons_self a t)
    simp only [List.find?, ha, Bool.not_true]
    exact ih (fun x hx => h x (List.mem_cons_of_mem a hx))

/-- C8: `multiApply` scans the statuses collected from the writer threads and
fails the whole batch with the first non-OK status found; when every status is
OK it returns the optime of the last operation in the batch. -/
theorem multiApply_fails_on_first_nonok_status (stopped : Bool)
    (ops : List OplogEntry) (pre post : List Status) (s : Status) :
    (ops ≠ [] → stopped = false → (∀ x ∈ pre, x.isOK = true) → s.isOK = false →
      multiApplyOutcome stopped ops (pre ++ s :: post) =
        some (Except.error s)) ∧
    (ops ≠ [] → stopped = false → (∀ x ∈ pre, x.isOK = true) →
      multiApplyOutcome stopped ops pre =
        some (Except.ok ((ops.getLastD dummyEntry).opTime))) := by
  constructor
  · intro hne hstop hpre hs
    unfold multiApplyOutcome
    rw [if_neg (by simp [hne]), if_neg (by simp [hstop]),
      find?_nonOK_append post s hs pre hpre]
  · intro hne hstop hpre
    unfold multiApplyOutcome
    rw [if_neg (by simp [hne]), if_neg (by simp [hstop]),
      find?_nonOK_none pre hpre]

/-- Witness for C8: a three-writer status vector whose second entry fails. -/
theorem multiApply_fails_on_first_nonok_status_witness :
    multiApplyOutcome false [txnOpA]
      [Status.ok, Status.error ErrorCodes.writeConflict "boom", Status.ok] =
      some (Except.error (Status.error ErrorCodes.writeConflict "boom")) ∧
    multiApplyOutcome false [txnOpA] [Status.ok, Status.ok] =
      some (Except.ok txnOpA.opTime) := by
  constructor
  · exact (multiApply_fails_on_first_nonok_status false [txnOpA] [Status.ok]
      [Status.ok] (Status.error ErrorCodes.writeConflict "boom")).1
      (by decide) rfl (by decide) rfl
  · have h := (multiApply_fails_on_first_nonok_status false [txnOpA]
      [Status.ok, Status.ok] [] Status.ok).2 (by decide) rfl (by decide)
    simpa using h

/-! ## C5: the sweeper never frees busy handles -/

theorem sweepMarkOne_eq (now : Nat) (d : DHandle) :
    ∃ t, sweepMarkOne now d = { d with timeOfDeath := t } := by
  simp only [sweepMarkOne]
  split_ifs <;> exact ⟨_, rfl⟩

theorem expireBlocked_update_tod (d : DHandle) (t : Nat) :
    expireBlocked { d with timeOfDeath := t } ↔ expireBlocked d := by
  simp [expireBlocked]

theorem sweepExpireOne_eq_self_of_blocked (d : DHandle)
    (h : d.lockAvail = false ∨
      (d.typ = HandleType.btree ∧ (d.modified = true ∨ d.visibleAll = false))) :
    sweepExpireOne d = d := by
  unfold sweepExpireOne
  split_ifs with h1 h2
  · rfl
  · rfl
  · rcases h with h | h
    · exact absurd h h1
    · exact absurd h h2

theorem mem_sweepExpire_of_blocked (hm hi now : Nat) (d : DHandle)
    (hblock : expireBlocked d) :
    ∀ (hs : List DHandle) (count : Nat), d ∈ hs →
      d ∈ sweepExpire hm hi now hs count := by
  intro hs
  induction hs with
  | nil => intro count h; simp at h
  | cons a t ih =>
    intro count h
    unfold sweepExpire
    split_ifs with h1 h2
    · exact h
    · rcases List.mem_cons.mp h with rfl | hmem
      · exact List.mem_cons_self _ _
      · exact List.mem_cons_of_mem _ (ih count hmem)
    · rcases List.mem_cons.mp h with rfl | hmem
      · simp only [not_or] at h2
        obtain ⟨h2a, h2b, h2c, -, -⟩ := h2
        have hone : sweepExpireOne d = d := by
          apply sweepExpireOne_eq_self_of_blocked
          rcases hblock with hb | hb | hb | hb | hb
          · exact absurd hb h2a
          · exact absurd hb h2b
          · exact absurd hb h2c
          · exact Or.inl hb
          · exact Or.inr hb
        rw [hone]
        exact List.mem_cons_self _ _
      · exact List.mem_cons_of_mem _ (ih _ hmem)

theorem sweepDiscardOne_eq_self (d : DHandle)
    (h : d.dead = false ∨ d.isOpen = false) : sweepDiscardOne d = d := by
  unfold sweepDiscardOne
  rcases h with h | h <;> simp [h]

theorem sweepTick_keeps_core (cfg : SweepConfig) (now : Nat) (hs : List DHandle)
    (d : DHandle) (hd : d ∈ hs) (hblock : expireBlocked d)
    (hnd : d.dead = false ∨ d.isOpen = false) (hcd : canDiscard d = false) :
    ∃ e ∈ sweepTick cfg now hs, e.core = d.core := by
  have step1 : ∃ t1, ({ d with timeOfDeath := t1 } : DHandle) ∈
      (if cfg.idleTime ≠ 0 then sweepMark now hs else hs) := by
    by_cases hidle : cfg.idleTime ≠ 0
    · obtain ⟨t, hmark⟩ := sweepMarkOne_eq now d
      refine ⟨t, ?_⟩
      rw [if_pos hidle, ← hmark]
      exact List.mem_map_of_mem _ hd
    · exact ⟨d.timeOfDeath, by rw [if_neg hidle]; exact hd⟩
  obtain ⟨t1, hmem1⟩ := step1
  have hblock1 : expireBlocked { d with timeOfDeath := t1 } :=
    (expireBlocked_update_tod d t1).mpr hblock
  have hnd1 : ({ d with timeOfDeath := t1 } : DHandle).dead = false ∨
      ({ d with timeOfDeath := t1 } : DHandle).isOpen = false := hnd
  have hcd1 : canDiscard { d with timeOfDeath := t1 } = false := hcd
  have hfinish : ∀ hs2 : List DHandle,
      ({ d with timeOfDeath := t1 } : DHandle) ∈ hs2 →
      ({ d with timeOfDeath := t1 } : DHandle) ∈
        (if 0 < deadHandlesCount hs2 then
          sweepRemoveHandles (sweepDiscardTrees hs2)
        else sweepDiscardTrees hs2) := by
    intro hs2 hmem
    have hdisc : ({ d with timeOfDeath := t1 } : DHandle) ∈ sweepDiscardTrees hs2 := by
      rw [← sweepDiscardOne_eq_self _ hnd1]
      exact List.mem_map_of_mem _ hmem
    split_ifs
    · exact List.mem_filter.mpr ⟨hdisc, by simp [sweepRemoveOneSucceeds, hcd1]⟩
    · exact hdisc
  refine ⟨{ d with timeOfDeath := t1 }, ?_, rfl⟩
  unfold sweepTick
  dsimp only
  by_cases hrun : cfg.idleTime ≠ 0 ∧
      cfg.handlesMin ≤ openBtreeCount (if cfg.idleTime ≠ 0 then sweepMark now hs else hs)
  · rw [if_pos hrun]
    exact hfinish _ (mem_sweepExpire_of_blocked _ _ _ _ hblock1 _ _ hmem1)
  · rw [if_neg hrun]
    exact hfinish _ hmem1

/-- C5: a sweeper tick never closes, discards, or removes a handle that is in
use (`sessionInUse > 0`), or has the EXCLUSIVE flag set, or is a live open
btree that is modified or has updates not yet visible to all transactions:
every such handle survives the tick with all of its fields other than the time
of death unchanged.  Moreover a handle is removed from the handle list only
when the discardable predicate `!EXCLUSIVE && !OPEN && sessionInUse == 0 &&
sessionRef == 0` holds and its write lock was acquired for the re-check.  The
`hlock` hypothesis says an EXCLUSIVE handle's write lock is held by its owner,
and `hdead` that handles already marked dead are no longer in use. -/
theorem sweeper_tick_never_frees_busy_handles (cfg : SweepConfig) (now : Nat)
    (hs : List DHandle)
    (hlock : ∀ d ∈ hs, d.exclusive = true → d.lockAvail = false)
    (hdead : ∀ d ∈ hs, d.dead = true → d.sessionInUse = 0 ∧ d.exclusive = false) :
    (∀ d ∈ hs, 0 < d.sessionInUse →
      ∃ e ∈ sweepTick cfg now hs, e.core = d.core) ∧
    (∀ d ∈ hs, d.exclusive = true →
      ∃ e ∈ sweepTick cfg now hs, e.core = d.core) ∧
    (∀ d ∈ hs, d.typ = HandleType.btree → d.isOpen = true → d.dead = false →
      d.modified = true ∨ d.visibleAll = false →
      ∃ e ∈ sweepTick cfg now hs, e.core = d.core) ∧
    (∀ (hs2 : List DHandle) (d : DHandle), d ∈ hs2 →
      d ∉ sweepRemoveHandles hs2 →
      d.isMetadata = false ∧ canDiscard d = true ∧ d.lockAvail = true) := by
  refine ⟨?_, ?_, ?_, ?_⟩
  · intro d hd huse
    apply sweepTick_keeps_core cfg now hs d hd
    · exact Or.inr (Or.inr (Or.inl (by omega)))
    · rcases Bool.eq_false_or_eq_true d.dead with h | h
      · exact absurd (hdead d hd (by simpa using h)).1 (by omega)
      · exact Or.inl (by simpa using h)
    · simp only [canDiscard]
      have : (d.sessionInUse == 0) = false := by
        simp only [beq_eq_false_iff_ne, ne_eq]
        omega
      simp [this]
  · intro d hd hex
    apply sweepTick_keeps_core cfg now hs d hd
    · exact Or.inr (Or.inr (Or.inr (Or.inl (hlock d hd hex))))
    · rcases Bool.eq_false_or_eq_true d.dead with h | h
      · exact absurd (hdead d hd (by simpa using h)).2 (by simp [hex])
      · exact Or.inl (by simpa using h)
    · simp [canDiscard, hex]
  · intro d hd htyp hopen hndead hdirty
    apply sweepTick_keeps_core cfg now hs d hd
    · exact Or.inr (Or.inr (Or.inr (Or.inr ⟨htyp, hdirty⟩)))
    · exact Or.inl hndead
    · simp [canDiscard, hopen]
  · intro hs2 d hd2 hnot
    by_cases hk : (!(sweepRemoveOneSucceeds d)) = true
    · exact absurd (List.mem_filter.mpr ⟨hd2, hk⟩) hnot
    · have hsucc : sweepRemoveOneSucceeds d = true := by
        revert hk; cases sweepRemoveOneSucceeds d <;> simp
      simp only [sweepRemoveOneSucceeds, Bool.and_eq_true,
        Bool.not_eq_true'] at hsucc
      exact ⟨hsucc.1.1.1, hsucc.1.1.2, hsucc.1.2⟩

/-- Witness for C5: a concrete tick over a busy handle and a discardable dead
handle; the busy handle survives with its core unchanged. -/
theorem sweeper_tick_never_frees_busy_handles_witness :
    (∃ e ∈ sweepTick sampleSweepConfig 50 [busyHandle, idleHandle],
      e.core = busyHandle.core) ∧
    (busyHandle ∈ [busyHandle, idleHandle] ∧ 0 < busyHandle.sessionInUse) :=
  ⟨(sweeper_tick_never_frees_busy_handles sampleSweepConfig 50
      [busyHandle, idleHandle] (by decide) (by decide)).1 busyHandle
      (by decide) (by decide),
   by decide, by decide⟩

/-! ## C4: pending-transaction handling in the partitioner -/

theorem pendingLookup_pendingSet (m : PendingMap) (k : Nat)
    (v : List OplogEntry) : pendingLookup (pendingSet m k v) k = v := by
  induction m with
  | nil => simp [pendingSet, pendingLookup, List.find?]
  | cons kv t ih =>
    simp only [pendingSet]
    split_ifs with h
    · simp [pendingLookup, List.find?]
    · simp only [pendingLookup, List.find?, h]
      exact ih

theorem fillWriterVectors_pending_step (oplog : List OplogEntry)
    (hashFn : OplogEntry → Nat) (n : Nat) (bg : OpTime) (fuel : Nat)
    (op : OplogEntry) (rest : List OplogEntry) (st : FillState)
    (hskip : OpTime.leb op.opTime bg = false) (hp : op.inPendingTxn = true) :
    fillWriterVectors oplog hashFn n bg fuel (op :: rest) st =
      fillWriterVectors oplog hashFn n bg fuel rest
        { st with pending := pendingInsert st.pending op } := by
  rw [fillWriterVectors.eq_def]
  simp only []
  rw [if_neg (by simp [hskip]), if_pos hp]

theorem fillWriterVectors_commit_step (oplog : List OplogEntry)
    (hashFn : OplogEntry → Nat) (n : Nat) (bg : OpTime) (fuel2 : Nat)
    (op : OplogEntry) (rest : List OplogEntry) (st : FillState)
    (hskip : OpTime.leb op.opTime bg = false)
    (hp : op.inPendingTxn = false)
    (hc : isUnpreparedCommit op.toOplogEntryData = true) :
    fillWriterVectors oplog hashFn n bg (fuel2 + 1) (op :: rest) st =
      match readTransactionOperationsFromOplogChain oplog op
              (pendingLookup st.pending (op.sessionId.getD 0)) with
      | none => none
      | some txnOps =>
        match fillWriterVectors oplog hashFn n bg fuel2 txnOps
                { st with pending := pendingSet st.pending (op.sessionId.getD 0) [] } with
        | none => none
        | some st2 =>
          fillWriterVectors oplog hashFn n bg (fuel2 + 1) rest st2 := by
  have hna : isUnpreparedApplyOps op.toOplogEntryData = false := by
    simp only [isUnpreparedCommit, Bool.and_eq_true, beq_iff_eq] at hc
    simp [isUnpreparedApplyOps, hc.1]
  rw [fillWriterVectors.eq_def]
  simp only []
  rw [if_neg (by simp [hskip]), if_neg (by simp [hp]), if_neg (by simp [hna]),
    if_pos hc, dif_neg (by omega)]
  simp only [Nat.add_sub_cancel]

theorem readTransactionOperations_no_pending (oplog : List OplogEntry)
    (c : OplogEntry) (cached : List OplogEntry) (l : List OplogEntry)
    (h : readTransactionOperationsFromOplogChain oplog c cached = some l) :
    ∀ e ∈ l, e.inPendingTxn = false := by
  intro e he
  unfold readTransactionOperationsFromOplogChain at h
  dsimp only at h
  split_ifs at h with h1 h2 h3
  · rcases hw : walkChain oplog oplog.length ((cached.headD c).prevOpTime) with
      _ | chainEntries
    · rw [hw] at h; exact absurd h (by simp)
    · rw [hw] at h
      simp only [Option.some.injEq] at h
      subst h
      rcases List.mem_append.mp he with hm | hm
      · rw [List.mem_reverse] at hm
        obtain ⟨x, -, rfl⟩ := List.mem_map.mp hm
        rfl
      · obtain ⟨x, -, rfl⟩ := List.mem_map.mp hm
        rfl
  · rcases hw : walkChain oplog oplog.length ((cached.headD c).prevOpTime) with
      _ | chainEntries <;> rw [hw] at h <;> exact absurd h (by simp)

theorem pushToWriter_noPending (hashFn : OplogEntry → Nat) (n : Nat)
    (st : FillState) (op : OplogEntry) (hop : op.inPendingTxn = false)
    (hst : writersHaveNoPendingOps st) :
    writersHaveNoPendingOps (pushToWriter hashFn n st op) := by
  intro w hw e he
  rcases List.mem_or_eq_of_mem_set hw with h | h
  · exact hst w h e he
  · subst h
    rcases List.mem_append.mp he with h | h
    · by_cases hi : hashFn op % n < st.writers.length
      · have hmem : st.writers.getD (hashFn op % n) [] ∈ st.writers := by
          rw [List.getD_eq_getElem _ _ hi]
          exact List.getElem_mem _
        exact hst _ hmem e h
      · rw [List.getD_eq_default _ _ (Nat.le_of_not_lt hi)] at h
        simp at h
    · rw [List.mem_singleton.mp h]
      exact hop

theorem fillWriterVectors_preserves_noPending (oplog : List OplogEntry)
    (hashFn : OplogEntry → Nat) (n : Nat) (bg : OpTime) :
    ∀ (fuel : Nat) (ops : List OplogEntry) (st st2 : FillState),
      fillWriterVectors oplog hashFn n bg fuel ops st = some st2 →
      writersHaveNoPendingOps st → writersHaveNoPendingOps st2 := by
  intro fuel
  induction fuel with
  | zero =>
    intro ops
    induction ops with
    | nil =>
      intro st st2 h hst
      rw [fillWriterVectors.eq_def] at h
      simp only [Option.some.injEq] at h
      exact h ▸ hst
    | cons op rest ih =>
      intro st st2 h hst
      rw [fillWriterVectors.eq_def] at h
      simp only [] at h
      split_ifs at h with h1 h2 h3 h4
      all_goals first
        | exact absurd h (by simp)
        | exact ih _ _ h hst
        | exact ih _ _ h (pushToWriter_noPending hashFn n st op (by simpa using h2) hst)
  | succ fuel2 ihf =>
    intro ops
    induction ops with
    | nil =>
      intro st st2 h hst
      rw [fillWriterVectors.eq_def] at h
      simp only [Option.some.injEq] at h
      exact h ▸ hst
    | cons op rest ih =>
      intro st st2 h hst
      rw [fillWriterVectors.eq_def] at h
      simp only [] at h
      split_ifs at h with h1 h2 h3 h4
      · exact ih _ _ h hst
      · exact ih _ _ h hst
      · simp only [Nat.add_sub_cancel] at h
        rcases hx : fillWriterVectors oplog hashFn n bg fuel2
            (extractOperations op) st with _ | stx
        · rw [hx] at h; exact absurd h (by simp)
        · rw [hx] at h
          dsimp only at h
          exact ih _ _ h (ihf _ _ _ hx hst)
      · simp only [Nat.add_sub_cancel] at h
        rcases hr : readTransactionOperationsFromOplogChain oplog op
            (pendingLookup st.pending (op.sessionId.getD 0)) with _ | txnOps
        · rw [hr] at h; exact absurd h (by simp)
        · rw [hr] at h
          dsimp only at h
          rcases hx : fillWriterVectors oplog hashFn n bg fuel2 txnOps
              { st with pending := pendingSet st.pending (op.sessionId.getD 0) [] }
            with _ | stx
          · rw [hx] at h; exact absurd h (by simp)
          · rw [hx] at h
            dsimp only at h
            exact ih _ _ h (ihf _ _ _ hx hst)
      · exact ih _ _ h
          (pushToWriter_noPending hashFn n st op (by simpa using h2) hst)

/-- C4: during partitioning, an entry flagged as part of a pending transaction
is only appended to its session's pending list (clearing the list first when
its front carries a different `txnNumber`), and is not placed in any writer
vector: writer vectors never contain pending-flagged entries.  When the
unprepared commit for the session arrives, the full transaction is assembled
from the oplog chain and the pending list, the pending list is cleared, and
the assembled operations are partitioned. -/
theorem fillWriterVectors_pending_transaction_handling (oplog : List OplogEntry)
    (hashFn : OplogEntry → Nat) (n : Nat) (bg : OpTime) :
    (∀ fuel op rest st, OpTime.leb op.opTime bg = false → op.inPendingTxn = true →
      fillWriterVectors oplog hashFn n bg fuel (op :: rest) st =
        fillWriterVectors oplog hashFn n bg fuel rest
          { st with pending := pendingInsert st.pending op }) ∧
    (∀ (m : PendingMap) (op front : OplogEntry) (tl : List OplogEntry),
      pendingLookup m (op.sessionId.getD 0) = front :: tl →
      front.txnNumber ≠ op.txnNumber →
      pendingLookup (pendingInsert m op) (op.sessionId.getD 0) = [op]) ∧
    (∀ (m : PendingMap) (op front : OplogEntry) (tl : List OplogEntry),
      pendingLookup m (op.sessionId.getD 0) = front :: tl →
      front.txnNumber = op.txnNumber →
      pendingLookup (pendingInsert m op) (op.sessionId.getD 0) =
        (front :: tl) ++ [op]) ∧
    (∀ fuel2 op rest st, OpTime.leb op.opTime bg = false →
      op.inPendingTxn = false → isUnpreparedCommit op.toOplogEntryData = true →
      fillWriterVectors oplog hashFn n bg (fuel2 + 1) (op :: rest) st =
        match readTransactionOperationsFromOplogChain oplog op
                (pendingLookup st.pending (op.sessionId.getD 0)) with
        | none => none
        | some txnOps =>
          match fillWriterVectors oplog hashFn n bg fuel2 txnOps
                  { st with pending := pendingSet st.pending (op.sessionId.getD 0) [] } with
          | none => none
          | some st2 =>
            fillWriterVectors oplog hashFn n bg (fuel2 + 1) rest st2) ∧
    (∀ fuel ops st st2,
      fillWriterVectors oplog hashFn n bg fuel ops st = some st2 →
      writersHaveNoPendingOps st → writersHaveNoPendingOps st2) := by
  refine ⟨?_, ?_, ?_, ?_, ?_⟩
  · intro fuel op rest st hskip hp
    exact fillWriterVectors_pending_step oplog hashFn n bg fuel op rest st hskip hp
  · intro m op front tl hlook hne
    simp only [pendingInsert]
    rw [hlook]
    dsimp only
    rw [if_pos hne, pendingLookup_pendingSet]
  · intro m op front tl hlook heq
    simp only [pendingInsert]
    rw [hlook]
    dsimp only
    rw [if_neg (by simp [heq]), pendingLookup_pendingSet]
  · intro fuel2 op rest st hskip hp hc
    exact fillWriterVectors_commit_step oplog hashFn n bg fuel2 op rest st hskip hp hc
  · exact fillWriterVectors_preserves_noPending oplog hashFn n bg

/-- Witness for C4: a pending op on session 4 is parked in the pending list
(writer vectors untouched), at a concrete state with two writers. -/
theorem fillWriterVectors_pending_transaction_handling_witness :
    fillWriterVectors [] (fun _ => 0) 2 ⟨⟨0, 0⟩, 0⟩ 1 [txnOpC]
      { pending := [], writers := [[], []] } =
      fillWriterVectors [] (fun _ => 0) 2 ⟨⟨0, 0⟩, 0⟩ 1 []
        { pending := pendingInsert [] txnOpC, writers := [[], []] } :=
  (fillWriterVectors_pending_transaction_handling [] (fun _ => 0) 2
      ⟨⟨0, 0⟩, 0⟩).1 1 txnOpC [] { pending := [], writers := [[], []] }
    (by decide) (by decide)
